import Mathlib

/-!
Verification of the byd-stats analytics core against its specification.

The numeric semantics of the JavaScript source is modelled with exact
rationals (`ℚ`) and integers (`ℤ`, epoch milliseconds).  Date handling
(`getDay`, `getHours`, `setHours(0,0,0,0)`, ...) is modelled in UTC, so a
`Date` is an epoch-millisecond integer and the accessors are integer
arithmetic; the ambient clock `new Date()` becomes an explicit `now`
parameter.  `Array.prototype.sort`, which is stable in JS, is modelled by
`List.insertionSort` with a key order (stable by construction).
TensorFlow.js model fitting is kept abstract as an oracle: the code's own
normalisation, filtering, blending and formatting stay concrete.
-/

set_option maxRecDepth 4000

/-- JS `Math.round` on a rational (half-up, as for positive JS numbers). -/
def jsRound (q : ℚ) : ℤ := ⌊q + 1/2⌋

/-- JS `parseFloat(x.toFixed(2))` on a rational: round to two decimals. -/
def round2 (q : ℚ) : ℚ := ((⌊q * 100 + 1/2⌋ : ℤ) : ℚ) / 100

/-- Arithmetic mean of a list of rationals (`tf.moments`' mean). -/
def listMean (l : List ℚ) : ℚ := l.sum / l.length

/-- Population variance of a list of rationals (`tf.moments`' variance). -/
def listVar (l : List ℚ) : ℚ := (l.map (fun x => (x - listMean l) ^ 2)).sum / l.length

/-- Stable sort by a key, the observable behaviour of JS `Array.sort` with
comparator `(a, b) => k(a) - k(b)`. -/
def sortK {α : Type} {β : Type} [LinearOrder β] (k : α → β) (l : List α) : List α :=
  List.insertionSort (fun x y => k x ≤ k y) l

theorem sortK_perm {α β : Type} [LinearOrder β] (k : α → β) (l : List α) :
    List.Perm (sortK k l) l :=
  List.perm_insertionSort _ l

theorem sortK_length {α β : Type} [LinearOrder β] (k : α → β) (l : List α) :
    (sortK k l).length = l.length :=
  (sortK_perm k l).length_eq

theorem sortK_sorted {α β : Type} [LinearOrder β] (k : α → β) (l : List α) :
    List.Sorted (fun x y => k x ≤ k y) (sortK k l) := by
  haveI : IsTotal α (fun x y => k x ≤ k y) := ⟨fun a b => le_total (k a) (k b)⟩
  haveI : IsTrans α (fun x y => k x ≤ k y) := ⟨fun _ _ _ h1 h2 => le_trans h1 h2⟩
  exact List.sorted_insertionSort _ l

theorem orderedInsert_append_of_skip {α : Type} (r : α → α → Prop) [DecidableRel r]
    (c : α) (xs t : List α) (h : ∀ x ∈ xs, ¬ r c x) :
    List.orderedInsert r c (xs ++ t) = xs ++ List.orderedInsert r c t := by
  induction xs with
  | nil => rfl
  | cons x xs ih =>
    have hx : ¬ r c x := h x (List.mem_cons_self x xs)
    have ih' := ih (fun y hy => h y (List.mem_cons_of_mem x hy))
    simp only [List.cons_append, List.orderedInsert, if_neg hx]
    exact congrArg (x :: ·) ih'

theorem orderedInsert_append_of_hit {α : Type} (r : α → α → Prop) [DecidableRel r]
    (c : α) (xs t : List α) (h : ¬ ∀ x ∈ xs, ¬ r c x) :
    List.orderedInsert r c (xs ++ t) = List.orderedInsert r c xs ++ t := by
  induction xs with
  | nil => exact absurd (by simp) h
  | cons x xs ih =>
    by_cases hx : r c x
    · simp only [List.cons_append, List.orderedInsert, if_pos hx]
      rfl
    · have h' : ¬ ∀ y ∈ xs, ¬ r c y := by
        intro hall
        refine h (fun y hy => ?_)
        rcases List.mem_cons.mp hy with rfl | hy'
        · exact hx
        · exact hall y hy'
      simp only [List.cons_append, List.orderedInsert, if_neg hx]
      exact congrArg (x :: ·) (ih h')

/-- Appending one element before a stable sort inserts it at a single position
and leaves the relative order of all other elements unchanged. -/
theorem sortK_append_singleton {α β : Type} [LinearOrder β] (k : α → β) (b : α)
    (l : List α) :
    ∃ xs ys, sortK k l = xs ++ ys ∧ sortK k (l ++ [b]) = xs ++ b :: ys := by
  induction l with
  | nil => exact ⟨[], [], rfl, rfl⟩
  | cons c t ih =>
    obtain ⟨xs, ys, h1, h2⟩ := ih
    have hsort : List.Sorted (fun x y => k x ≤ k y) (xs ++ b :: ys) := by
      rw [← h2]; exact sortK_sorted k (t ++ [b])
    have hstep : sortK k (c :: t) =
        List.orderedInsert (fun x y => k x ≤ k y) c (xs ++ ys) :=
      congrArg (List.orderedInsert (fun x y => k x ≤ k y) c) h1
    have hstep' : sortK k (c :: t ++ [b]) =
        List.orderedInsert (fun x y => k x ≤ k y) c (xs ++ b :: ys) :=
      congrArg (List.orderedInsert (fun x y => k x ≤ k y) c) h2
    by_cases hall : ∀ x ∈ xs, ¬ (k c ≤ k x)
    · by_cases hcb : k c ≤ k b
      · -- c is inserted directly before b
        have hys : List.orderedInsert (fun x y => k x ≤ k y) c ys = c :: ys := by
          cases ys with
          | nil => rfl
          | cons y ys' =>
            have hby : k b ≤ k y := by
              have hp := (List.pairwise_append.mp hsort).2.1
              exact List.rel_of_sorted_cons hp y (List.mem_cons_self y ys')
            simp only [List.orderedInsert, if_pos (le_trans hcb hby)]
        refine ⟨xs ++ [c], ys, ?_, ?_⟩
        · rw [hstep, orderedInsert_append_of_skip _ _ _ _ hall, hys]
          simp
        · rw [hstep', orderedInsert_append_of_skip _ _ _ _ hall]
          simp only [List.orderedInsert, if_pos hcb]
          simp
      · refine ⟨xs, List.orderedInsert (fun x y => k x ≤ k y) c ys, ?_, ?_⟩
        · rw [hstep, orderedInsert_append_of_skip _ _ _ _ hall]
        · rw [hstep', orderedInsert_append_of_skip _ _ _ _ hall]
          simp only [List.orderedInsert, if_neg hcb]
    · refine ⟨List.orderedInsert (fun x y => k x ≤ k y) c xs, ys, ?_, ?_⟩
      · rw [hstep, orderedInsert_append_of_hit _ _ _ _ hall]
      · rw [hstep', orderedInsert_append_of_hit _ _ _ _ hall]

/-!
## Data model

`Trip` mirrors the trip record fields used by the analytics core.  JS
truthiness of a timestamp (`t.start_timestamp && t.end_timestamp`) is
modelled as the integer being nonzero.  Optional state-of-charge fields are
`Option ℚ` (JS `undefined` being `none`).
-/

structure Trip where
  start_timestamp : ℤ
  end_timestamp : ℤ
  electricity : ℚ
  start_soc : Option ℚ
  end_soc : Option ℚ
  date : ℤ
  deriving DecidableEq, Repr

/-- Settings fields consumed by the scheduler and the anomaly detector.
Off-peak times are parsed `"HH:MM"` pairs; `none` models an unset or empty
(JS-falsy) value.  `homeChargerRating = 0` and `batterySize = 0` model the
falsy/unparsable cases of `settings.homeChargerRating` and
`parseFloat(settings.batterySize)`. -/
structure Settings where
  offPeakEnabled : Bool
  offPeakStart : Option (ℕ × ℕ)
  offPeakEnd : Option (ℕ × ℕ)
  offPeakStartWeekend : Option (ℕ × ℕ)
  offPeakEndWeekend : Option (ℕ × ℕ)
  homeChargerRating : ℚ
  batterySize : ℚ
  deriving DecidableEq, Repr

/-!
## Anomaly detector (AnomalyService.analyzePhantomDrain)
-/

inductive Sev
  | info
  | warning
  | critical
  deriving DecidableEq, Repr

inductive AnomType
  | battery
  | drain
  | charging
  | efficiency
  deriving DecidableEq, Repr

/-- An anomaly record, keeping the numeric payload of the drain rule
(`value` is the %-per-day figure, `timestamp` is `nextTrip.start_timestamp`,
`idDate` is `currentTrip.date` from the `drain_${date}` id). -/
structure Anomaly where
  atype : AnomType
  severity : Sev
  dropPct : ℚ
  dropKwh : ℚ
  gapHours : ℚ
  dropPer24h : ℚ
  idDate : ℤ
  timestamp : ℤ
  deriving DecidableEq, Repr

/-- `parseFloat(settings.batterySize.toString()) || 60`. -/
def batteryCapacityOf (s : Settings) : ℚ :=
  if s.batterySize = 0 then 60 else s.batterySize

/-- The gap between two consecutive trips, in hours (trip timestamps are
used as milliseconds by `analyzePhantomDrain`). -/
def gapHoursOf (a b : Trip) : ℚ :=
  ((b.start_timestamp - a.end_timestamp : ℤ) : ℚ) / (1000 * 60 * 60)

/-- Does the parking gap between consecutive trips `a`, `b` trigger the
phantom-drain rule?  Mirrors: gap > 12h, both SoCs present, SoC strictly
dropped, normalized loss > 2% per 24h. -/
def drainQualifies (a b : Trip) : Bool :=
  (decide (12 < gapHoursOf a b)) &&
    (match a.end_soc, b.start_soc with
     | some endSoc, some startSoc =>
         decide (startSoc < endSoc) &&
           decide (2 < (endSoc - startSoc) / gapHoursOf a b * 24)
     | _, _ => false)

/-- The anomaly pushed for a qualifying gap. -/
def mkDrainAnomaly (cap : ℚ) (a b : Trip) : Anomaly :=
  let endSoc := a.end_soc.getD 0
  let startSoc := b.start_soc.getD 0
  let dropPct := endSoc - startSoc
  let gapH := gapHoursOf a b
  { atype := .drain
    severity := if 4 < dropPct / gapH * 24 then .warning else .info
    dropPct := dropPct
    dropKwh := dropPct / 100 * cap
    gapHours := gapH
    dropPer24h := dropPct / gapH * 24
    idDate := a.date
    timestamp := b.start_timestamp }

/-- The scan loop of `analyzePhantomDrain`: walk consecutive pairs of the
chronologically sorted trips, push an anomaly for the first qualifying gap
and `break`. -/
def drainScan (cap : ℚ) : List Trip → List Anomaly
  | a :: b :: rest =>
      if drainQualifies a b then [mkDrainAnomaly cap a b]
      else drainScan cap (b :: rest)
  | _ => []

/-- `AnomalyService.analyzePhantomDrain`. -/
def analyzePhantomDrain (trips : List Trip) (settings : Settings) : List Anomaly :=
  drainScan (batteryCapacityOf settings) (sortK (·.start_timestamp) trips)

/-- Number of qualifying adjacent gaps in a trip list (specification-side
count, no early exit). -/
def countDrainPairs : List Trip → ℕ
  | a :: b :: rest => (if drainQualifies a b then 1 else 0) + countDrainPairs (b :: rest)
  | _ => 0

theorem drainScan_of_qualifying (cap : ℚ) (l : List Trip)
    (h : 0 < countDrainPairs l) :
    ∃ a b, drainQualifies a b = true ∧ drainScan cap l = [mkDrainAnomaly cap a b] := by
  induction l with
  | nil => simp [countDrainPairs] at h
  | cons x t ih =>
    cases t with
    | nil => simp [countDrainPairs] at h
    | cons y t' =>
      by_cases hq : drainQualifies x y
      · exact ⟨x, y, hq, by simp [drainScan, hq]⟩
      · have h' : 0 < countDrainPairs (y :: t') := by
          have hc : countDrainPairs (x :: y :: t') = countDrainPairs (y :: t') := by
            simp [countDrainPairs, hq]
          rw [hc] at h
          exact h
        obtain ⟨a, b, hab, hscan⟩ := ih h'
        exact ⟨a, b, hab, by simp [drainScan, hq, hscan]⟩

theorem drainQualifies_fields (a b : Trip) (h : drainQualifies a b = true) :
    12 < gapHoursOf a b ∧
    2 < (mkDrainAnomaly 0 a b).dropPer24h := by
  unfold drainQualifies at h
  rcases hmatch : a.end_soc with _ | es <;> rcases hmatch2 : b.start_soc with _ | ss <;>
    rw [hmatch, hmatch2] at h <;> simp_all [mkDrainAnomaly, gapHoursOf]

theorem mkDrainAnomaly_severity (cap : ℚ) (a b : Trip) :
    ((mkDrainAnomaly cap a b).severity = .warning ↔ 4 < (mkDrainAnomaly cap a b).dropPer24h) ∧
    ((mkDrainAnomaly cap a b).severity = .info ↔ (mkDrainAnomaly cap a b).dropPer24h ≤ 4) := by
  dsimp only [mkDrainAnomaly]
  split_ifs with h4
  · simp [h4, not_le.mpr h4]
  · simp [h4, not_lt.mp h4]

/-- C3: a trip history whose chronologically sorted list has exactly one
qualifying parking gap (gap > 12h, SoC strictly dropped, loss > 2%/24h)
produces exactly one anomaly, of type `drain`, with severity `warning`
exactly when the per-24h loss exceeds 4%/day and `info` otherwise (the
2%-to-4% band). -/
theorem c3_single_gap_single_drain_anomaly (trips : List Trip) (settings : Settings)
    (h : countDrainPairs (sortK (·.start_timestamp) trips) = 1) :
    (analyzePhantomDrain trips settings).length = 1 ∧
    ∀ a ∈ analyzePhantomDrain trips settings,
      a.atype = .drain ∧ 2 < a.dropPer24h ∧
      (a.severity = .warning ↔ 4 < a.dropPer24h) ∧
      (a.severity = .info ↔ a.dropPer24h ≤ 4) := by
  obtain ⟨x, y, hq, hscan⟩ :=
    drainScan_of_qualifying (batteryCapacityOf settings)
      (sortK (·.start_timestamp) trips) (by rw [h]; exact Nat.one_pos)
  unfold analyzePhantomDrain
  rw [hscan]
  refine ⟨rfl, ?_⟩
  intro a ha
  rw [List.mem_singleton] at ha
  subst ha
  have h2 := (drainQualifies_fields x y hq).2
  have h2' : 2 < (mkDrainAnomaly (batteryCapacityOf settings) x y).dropPer24h := h2
  exact ⟨rfl, h2', mkDrainAnomaly_severity (batteryCapacityOf settings) x y⟩

def exDrainSettings : Settings :=
  { offPeakEnabled := false, offPeakStart := none, offPeakEnd := none,
    offPeakStartWeekend := none, offPeakEndWeekend := none,
    homeChargerRating := 0, batterySize := 60 }

/-- Two trips separated by a 48h gap during which the SoC fell from 80% to
70% (5%/day, above the 4%/day warning threshold). -/
def exDrainTrips : List Trip :=
  [ { start_timestamp := 1000000, end_timestamp := 2000000, electricity := 5,
      start_soc := some 90, end_soc := some 80, date := 11 },
    { start_timestamp := 174800000, end_timestamp := 175000000, electricity := 5,
      start_soc := some 70, end_soc := some 70, date := 22 } ]

theorem c3_witness :
    countDrainPairs (sortK (·.start_timestamp) exDrainTrips) = 1 ∧
    ((analyzePhantomDrain exDrainTrips exDrainSettings).length = 1 ∧
      ∀ a ∈ analyzePhantomDrain exDrainTrips exDrainSettings,
        a.atype = .drain ∧ 2 < a.dropPer24h ∧
        (a.severity = .warning ↔ 4 < a.dropPer24h) ∧
        (a.severity = .info ↔ a.dropPer24h ≤ 4)) :=
  ⟨by decide!,
    c3_single_gap_single_drain_anomaly exDrainTrips exDrainSettings
      (by decide!)⟩

/-- Three trips with two qualifying 48h phantom-drain gaps: trips 1-2
(SoC 80% to 70%, `date` id 11, next-trip timestamp 174800000) and trips 2-3
(SoC 60% to 50%, next-trip timestamp 347800000, the chronologically most
recent one). -/
def exTwoGapTrips : List Trip :=
  [ { start_timestamp := 1000000, end_timestamp := 2000000, electricity := 5,
      start_soc := some 90, end_soc := some 80, date := 11 },
    { start_timestamp := 174800000, end_timestamp := 175000000, electricity := 5,
      start_soc := some 70, end_soc := some 60, date := 22 },
    { start_timestamp := 347800000, end_timestamp := 348000000, electricity := 5,
      start_soc := some 50, end_soc := some 50, date := 33 } ]

/-- C4: with two qualifying gaps, the scan (which breaks on the first match
while walking oldest to newest) reports the EARLIEST gap: the anomaly's
timestamp is 174800000 (end of the first gap) and its id date is 11,
although the most recent qualifying gap ends at timestamp 347800000. -/
theorem c4_reports_earliest_not_most_recent :
    countDrainPairs (sortK (·.start_timestamp) exTwoGapTrips) = 2 ∧
    (analyzePhantomDrain exTwoGapTrips exDrainSettings).map (·.timestamp) = [174800000] ∧
    (analyzePhantomDrain exTwoGapTrips exDrainSettings).map (·.idDate) = [11] :=
  ⟨by decide!, by decide!, by decide!⟩

/-!
## Battery SoH predictor (PredictiveService.trainSoH)

The TensorFlow.js pieces are abstracted into an oracle: `sqrtQ` models the
floating-point square root used by the normalisation, `fitPredict` models
"fit a 1-feature linear model on the z-scored features and labels, then
predict at a z-scored query", and `fitLoss` models the last-epoch training
loss.  Everything else (filtering, sorting, implied capacities, the
weighted median, the hybrid blend, rounding) is the code itself.
-/

structure Charge where
  kwhCharged : ℚ
  kwh : ℚ
  initialPercentage : ℚ
  finalPercentage : ℚ
  date : ℤ
  deriving DecidableEq, Repr

/-- `c.kwhCharged || c.kwh` (JS falsy fallback). -/
def chargeKwh (c : Charge) : ℚ := if c.kwhCharged = 0 then c.kwh else c.kwhCharged

/-- The "deep session" filter of `trainSoH`:
`kwh > 0 && start >= 0 && end > start && (end - start) >= 5 && date`. -/
def chargeDeep (c : Charge) : Bool :=
  decide (0 < chargeKwh c) && decide (0 ≤ c.initialPercentage) &&
    decide (c.initialPercentage < c.finalPercentage) &&
    decide (5 ≤ c.finalPercentage - c.initialPercentage) && decide (c.date ≠ 0)

def deepCharges (charges : List Charge) : List Charge := charges.filter chargeDeep

def defaultCharge : Charge := ⟨0, 0, 0, 0, 0⟩

/-- Implied battery capacity of one session: kWh delivered divided by the
fractional SoC gained. -/
def impliedCapOf (c : Charge) : ℚ :=
  chargeKwh c / ((c.finalPercentage - c.initialPercentage) / 100)

/-- One pass of the training-sample loop: skip a session when the SoC gain
is (near) zero or when the implied capacity fails the physical sanity
filter; otherwise emit (days since first charge, implied capacity, weight).
-/
def sohSample (firstDate : ℤ) (nominal : ℚ) (c : Charge) : Option (ℚ × ℚ × ℚ) :=
  let percentAddedDecimal := (c.finalPercentage - c.initialPercentage) / 100
  if percentAddedDecimal < 1/100 then none
  else
    let impliedCapacity := chargeKwh c / percentAddedDecimal
    if nominal * (3/2) < impliedCapacity ∨ impliedCapacity < nominal * (1/2) then none
    else some (((c.date - firstDate : ℤ) : ℚ) / 86400000, impliedCapacity, percentAddedDecimal)

def sohSamples (firstDate : ℤ) (nominal : ℚ) (l : List Charge) : List (ℚ × ℚ × ℚ) :=
  l.filterMap (sohSample firstDate nominal)

/-- First (chronologically) deep charge's date, `new Date(validCharges[0].date)`. -/
def firstDeepDate (charges : List Charge) : ℤ :=
  ((sortK (·.date) (deepCharges charges)).headD defaultCharge).date

/-- The surviving training samples of `trainSoH`. -/
def saneSamples (charges : List Charge) (nominal : ℚ) : List (ℚ × ℚ × ℚ) :=
  sohSamples (firstDeepDate charges) nominal (sortK (·.date) (deepCharges charges))

/-- The weighted-median walk: accumulate weights in capacity order and stop
at the first item reaching half the total weight. -/
def medianWalk (target : ℚ) : ℚ → List (ℚ × ℚ) → Option ℚ
  | _, [] => none
  | acc, (cap, w) :: rest =>
      if target ≤ acc + w then some cap else medianWalk target (acc + w) rest

/-- Weighted median of implied capacities (weight = fraction of battery
charged), defaulting to the nominal capacity. -/
def weightedMedian (nominal : ℚ) (items : List (ℚ × ℚ)) : ℚ :=
  let s := sortK (·.1) items
  (medianWalk ((s.map (·.2)).sum / 2) 0 s).getD nominal

structure SoHOracle where
  sqrtQ : ℚ → ℚ
  fitPredict : List ℚ → List ℚ → ℚ → ℚ
  fitLoss : List ℚ → List ℚ → ℚ

structure SoHResult where
  loss : ℚ
  samples : ℕ
  predictedSoH : ℚ
  deriving DecidableEq, Repr

/-- The model prediction at the latest sample's day offset, i.e.
`predictSoHInternal(features[features.length - 1])`: z-score the query with
the stored moments and run the fitted model (the oracle). -/
def aiPrediction (o : SoHOracle) (charges : List Charge) (nominal : ℚ) : ℚ :=
  let features := (saneSamples charges nominal).map (·.1)
  let labels := (saneSamples charges nominal).map (fun s => s.2.1)
  let m := listMean features
  let denom := o.sqrtQ (listVar features) + 1/1000000
  o.fitPredict (features.map (fun x => (x - m) / denom)) labels
    ((features.getLastD 0 - m) / denom)

/-- The trained tail of `trainSoH` (weighted median, z-scored regression
via the oracle, hybrid blend, rounding), reached once all the data checks
have passed. -/
def trainTail (o : SoHOracle) (charges : List Charge) (nominalCapacity : ℚ) : SoHResult :=
  let smp := saneSamples charges nominalCapacity
  let labels := smp.map (fun s => s.2.1)
  let medianCap := weightedMedian nominalCapacity (smp.map (fun s => (s.2.1, s.2.2)))
  let features := smp.map (·.1)
  let m := listMean features
  let denom := o.sqrtQ (listVar features) + 1/1000000
  let normFeatures := features.map (fun x => (x - m) / denom)
  let predCapacityAI := o.fitPredict normFeatures labels
    ((features.getLastD 0 - m) / denom)
  let deviation := |predCapacityAI - medianCap| / medianCap
  let finalCapacity :=
    if 1/20 < deviation then predCapacityAI * (1/10) + medianCap * (9/10)
    else predCapacityAI * (3/10) + medianCap * (7/10)
  ⟨o.fitLoss normFeatures labels, smp.length,
    round2 (finalCapacity / nominalCapacity * 100)⟩

/-- `PredictiveService.trainSoH`. -/
def trainSoH (o : SoHOracle) (charges : List Charge) (nominalCapacity : ℚ) : SoHResult :=
  if nominalCapacity ≤ 0 then ⟨0, 0, 100⟩
  else
    if (deepCharges charges).length < 3 then ⟨0, 0, 100⟩
    else
      if (saneSamples charges nominalCapacity).length < 3 then ⟨0, 0, 100⟩
      else trainTail o charges nominalCapacity

/-- Helper: every insufficient-data branch returns the neutral default. -/
theorem trainSoH_neutral (o : SoHOracle) (charges : List Charge) (nominalCapacity : ℚ)
    (h : nominalCapacity ≤ 0 ∨ (deepCharges charges).length < 3 ∨
      (saneSamples charges nominalCapacity).length < 3) :
    trainSoH o charges nominalCapacity = ⟨0, 0, 100⟩ := by
  unfold trainSoH
  split_ifs with h1 h2 h3
  · rfl
  · rfl
  · rfl
  · rcases h with h | h | h
    · exact absurd h h1
    · exact absurd h h2
    · exact absurd h h3

/-- Helper: once all checks pass, `trainSoH` is the trained tail. -/
theorem trainSoH_trained (o : SoHOracle) (charges : List Charge) (nominalCapacity : ℚ)
    (h1 : ¬ nominalCapacity ≤ 0) (h2 : ¬ (deepCharges charges).length < 3)
    (h3 : ¬ (saneSamples charges nominalCapacity).length < 3) :
    trainSoH o charges nominalCapacity = trainTail o charges nominalCapacity := by
  unfold trainSoH
  rw [if_neg h1, if_neg h2, if_neg h3]

/-- C9: `trainSoH` treats bad input as insufficient data and returns the
neutral default: whenever the nominal capacity is not strictly positive, or
fewer than 3 charges survive the deep-session filter, or fewer than 3
samples survive the physical-sanity filter, the result is
`{loss: 0, samples: 0, predictedSoH: 100}` (being a total function, it
never throws). -/
theorem c9_insufficient_data_default (o : SoHOracle) (charges : List Charge)
    (nominalCapacity : ℚ)
    (h : nominalCapacity ≤ 0 ∨ (deepCharges charges).length < 3 ∨
      (saneSamples charges nominalCapacity).length < 3) :
    trainSoH o charges nominalCapacity = ⟨0, 0, 100⟩ :=
  trainSoH_neutral o charges nominalCapacity h

theorem c9_witness :
    ((0 : ℚ) ≤ 0 ∨ (deepCharges []).length < 3 ∨ (saneSamples [] 0).length < 3) ∧
      trainSoH ⟨fun q => q, fun _ _ _ => 55, fun _ _ => 0⟩ [] 0 = ⟨0, 0, 100⟩ :=
  ⟨Or.inl le_rfl,
    c9_insufficient_data_default ⟨fun q => q, fun _ _ _ => 55, fun _ _ => 0⟩ [] 0
      (Or.inl le_rfl)⟩

/-- The hybrid blend exactly as the spec words it: if the AI prediction
deviates from the weighted median by more than 5% (relative to the median),
weight it 10% AI / 90% median, otherwise 30% AI / 70% median. -/
def specBlend (ai med : ℚ) : ℚ :=
  if 1/20 < |ai - med| / med then ai * (1/10) + med * (9/10)
  else ai * (3/10) + med * (7/10)

/-- C5: when `trainSoH` actually trains (positive nominal capacity and at
least 3 surviving samples), the reported SoH is the hybrid blend of the AI
prediction at the latest sample's day offset with the weighted median,
divided by the nominal capacity, times 100, rounded to 2 decimals; and the
reported sample count is the number of surviving samples. -/
theorem c5_hybrid_blend (o : SoHOracle) (charges : List Charge) (nominalCapacity : ℚ)
    (h1 : 0 < nominalCapacity) (h2 : 3 ≤ (deepCharges charges).length)
    (h3 : 3 ≤ (saneSamples charges nominalCapacity).length) :
    (trainSoH o charges nominalCapacity).predictedSoH =
      round2 (specBlend (aiPrediction o charges nominalCapacity)
          (weightedMedian nominalCapacity
            ((saneSamples charges nominalCapacity).map (fun s => (s.2.1, s.2.2)))) /
        nominalCapacity * 100) ∧
    (trainSoH o charges nominalCapacity).samples =
      (saneSamples charges nominalCapacity).length := by
  rw [trainSoH_trained o charges nominalCapacity (not_le.mpr h1) (not_lt.mpr h2)
    (not_lt.mpr h3)]
  exact ⟨rfl, rfl⟩

/-- Three identical deep sessions, each implying exactly the nominal 60 kWh
capacity. -/
def exSoHCharges : List Charge :=
  [ ⟨30, 0, 20, 70, 1000000⟩, ⟨30, 0, 20, 70, 2000000⟩, ⟨30, 0, 20, 70, 3000000⟩ ]

def exOracle : SoHOracle := ⟨fun q => q, fun _ _ _ => 55, fun _ _ => 0⟩

theorem c5_witness :
    ((0 : ℚ) < 60 ∧ 3 ≤ (deepCharges exSoHCharges).length ∧
      3 ≤ (saneSamples exSoHCharges 60).length) ∧
    ((trainSoH exOracle exSoHCharges 60).predictedSoH =
      round2 (specBlend (aiPrediction exOracle exSoHCharges 60)
          (weightedMedian 60 ((saneSamples exSoHCharges 60).map (fun s => (s.2.1, s.2.2)))) /
        60 * 100) ∧
    (trainSoH exOracle exSoHCharges 60).samples = (saneSamples exSoHCharges 60).length) :=
  ⟨⟨by norm_num, by decide!, by decide!⟩,
    c5_hybrid_blend exOracle exSoHCharges 60 (by norm_num)
      (by decide!) (by decide!)⟩

theorem listSum_map_add (l : List ℚ) (d : ℚ) :
    (l.map (fun x => x + d)).sum = l.sum + l.length * d := by
  induction l with
  | nil => simp
  | cons x t ih =>
    simp only [List.map_cons, List.sum_cons, List.length_cons, ih]
    push_cast
    ring

theorem listMean_map_add (l : List ℚ) (d : ℚ) (hne : l ≠ []) :
    listMean (l.map (fun x => x + d)) = listMean l + d := by
  have hn : (l.length : ℚ) ≠ 0 := by
    have hp := List.length_pos.mpr hne
    exact_mod_cast Nat.ne_of_gt hp
  unfold listMean
  rw [List.length_map, listSum_map_add]
  field_simp
  ring

theorem listVar_map_add (l : List ℚ) (d : ℚ) (hne : l ≠ []) :
    listVar (l.map (fun x => x + d)) = listVar l := by
  unfold listVar
  rw [listMean_map_add l d hne, List.length_map, List.map_map]
  have hfun : ((fun x => (x - (listMean l + d)) ^ 2) ∘ fun x => x + d) =
      fun x => (x - listMean l) ^ 2 := by
    funext x
    simp only [Function.comp]
    ring
  rw [hfun]

theorem getLastD_map_add (l : List ℚ) (d : ℚ) (hne : l ≠ []) :
    (l.map (fun x => x + d)).getLastD 0 = l.getLastD 0 + d := by
  rw [List.getLastD_eq_getLast?, List.getLastD_eq_getLast?, List.getLast?_map]
  cases h : l.getLast? with
  | none => exact absurd (List.getLast?_eq_none_iff.mp h) hne
  | some a => simp

theorem sohSample_shift (fd fd' : ℤ) (nominal : ℚ) (c : Charge) :
    sohSample fd' nominal c =
      (sohSample fd nominal c).map
        (fun s => (s.1 + ((fd - fd' : ℤ) : ℚ) / 86400000, s.2)) := by
  unfold sohSample
  dsimp only
  split_ifs with hp hs
  · rfl
  · rfl
  · simp only [Option.map_some']
    refine congrArg some (Prod.ext ?_ rfl)
    push_cast
    ring

theorem sohSamples_shift (fd fd' : ℤ) (nominal : ℚ) (l : List Charge) :
    sohSamples fd' nominal l =
      (sohSamples fd nominal l).map
        (fun s => (s.1 + ((fd - fd' : ℤ) : ℚ) / 86400000, s.2)) := by
  unfold sohSamples
  rw [List.map_filterMap]
  induction l with
  | nil => rfl
  | cons c t ih =>
    simp only [List.filterMap_cons]
    rw [sohSample_shift fd fd' nominal c]
    cases sohSample fd nominal c with
    | none => exact ih
    | some s => simp only [Option.map_some']; rw [ih]

theorem sohSamples_skip (fd : ℤ) (nominal : ℚ) (b : Charge) (xs ys : List Charge)
    (hb : sohSample fd nominal b = none) :
    sohSamples fd nominal (xs ++ b :: ys) = sohSamples fd nominal (xs ++ ys) := by
  unfold sohSamples
  rw [List.filterMap_append, List.filterMap_append, List.filterMap_cons, hb]

theorem sohSamples_length_le (fd : ℤ) (nominal : ℚ) (l : List Charge) :
    (sohSamples fd nominal l).length ≤ l.length :=
  List.length_filterMap_le _ l

theorem saneSamples_congr_deep (c1 c2 : List Charge) (nominal : ℚ)
    (h : deepCharges c1 = deepCharges c2) :
    saneSamples c1 nominal = saneSamples c2 nominal := by
  unfold saneSamples firstDeepDate
  rw [h]

theorem trainSoH_congr_deep (o : SoHOracle) (c1 c2 : List Charge) (nominal : ℚ)
    (h : deepCharges c1 = deepCharges c2) :
    trainSoH o c1 nominal = trainSoH o c2 nominal := by
  unfold trainSoH trainTail
  rw [saneSamples_congr_deep c1 c2 nominal h, h]

/-- Shifting every day offset by a constant (a different first-charge date)
does not change the trained result: the z-scored features, the labels, the
weights and the z-scored query are all invariant. -/
theorem trainTail_shift (o : SoHOracle) (c1 c2 : List Charge) (nominal δ : ℚ)
    (hmap : saneSamples c1 nominal =
      (saneSamples c2 nominal).map (fun s => (s.1 + δ, s.2)))
    (hne : saneSamples c2 nominal ≠ []) :
    trainTail o c1 nominal = trainTail o c2 nominal := by
  unfold trainTail
  rw [hmap]
  dsimp only
  have hne' : (saneSamples c2 nominal).map (fun s => s.1) ≠ [] := by
    simpa using hne
  have hlab : ((saneSamples c2 nominal).map (fun s => (s.1 + δ, s.2))).map
      (fun s => s.2.1) = (saneSamples c2 nominal).map (fun s => s.2.1) := by
    rw [List.map_map]
    rfl
  have hcaps : ((saneSamples c2 nominal).map (fun s => (s.1 + δ, s.2))).map
      (fun s => (s.2.1, s.2.2)) = (saneSamples c2 nominal).map (fun s => (s.2.1, s.2.2)) := by
    rw [List.map_map]
    rfl
  have hfeat : ((saneSamples c2 nominal).map (fun s => (s.1 + δ, s.2))).map
      (fun s => s.1) = ((saneSamples c2 nominal).map (fun s => s.1)).map
      (fun x => x + δ) := by
    rw [List.map_map, List.map_map]
    rfl
  rw [hlab, hcaps, hfeat, List.length_map,
    listMean_map_add _ _ hne', listVar_map_add _ _ hne', getLastD_map_add _ _ hne']
  have hnorm : (((saneSamples c2 nominal).map (fun s => s.1)).map (fun x => x + δ)).map
      (fun x => (x - (listMean ((saneSamples c2 nominal).map (fun s => s.1)) + δ)) /
        (o.sqrtQ (listVar ((saneSamples c2 nominal).map (fun s => s.1))) + 1 / 1000000)) =
      ((saneSamples c2 nominal).map (fun s => s.1)).map
      (fun x => (x - listMean ((saneSamples c2 nominal).map (fun s => s.1))) /
        (o.sqrtQ (listVar ((saneSamples c2 nominal).map (fun s => s.1))) + 1 / 1000000)) := by
    rw [List.map_map]
    congr 1
    funext x
    simp only [Function.comp]
    ring
  rw [hnorm]
  have hq : (((saneSamples c2 nominal).map (fun s => s.1)).getLastD 0 + δ -
        (listMean ((saneSamples c2 nominal).map (fun s => s.1)) + δ)) /
        (o.sqrtQ (listVar ((saneSamples c2 nominal).map (fun s => s.1))) + 1 / 1000000) =
      (((saneSamples c2 nominal).map (fun s => s.1)).getLastD 0 -
        listMean ((saneSamples c2 nominal).map (fun s => s.1))) /
        (o.sqrtQ (listVar ((saneSamples c2 nominal).map (fun s => s.1))) + 1 / 1000000) := by
    ring
  rw [hq]

/-- C2: appending one charging session whose implied capacity (kWh divided
by fractional SoC gained) lies strictly outside [0.5x, 1.5x] of the nominal
capacity leaves `trainSoH` completely unchanged (same loss, same sample
count, same predictedSoH): such sessions reach neither the weighted median
nor the regression inputs. -/
theorem c2_implausible_session_ignored (o : SoHOracle) (charges : List Charge)
    (nominal : ℚ) (b : Charge)
    (hb : nominal * (3/2) < impliedCapOf b ∨ impliedCapOf b < nominal * (1/2)) :
    trainSoH o (charges ++ [b]) nominal = trainSoH o charges nominal := by
  by_cases hdeep : chargeDeep b = true
  · have hb2 : nominal * (3/2) < chargeKwh b / ((b.finalPercentage - b.initialPercentage) / 100)
        ∨ chargeKwh b / ((b.finalPercentage - b.initialPercentage) / 100) < nominal * (1/2) := hb
    have h5 : 5 ≤ b.finalPercentage - b.initialPercentage := by
      unfold chargeDeep at hdeep
      simp only [Bool.and_eq_true, decide_eq_true_eq] at hdeep
      exact hdeep.1.2
    have hskip : ∀ fd : ℤ, sohSample fd nominal b = none := by
      intro fd
      unfold sohSample
      dsimp only
      rw [if_neg (by linarith :
        ¬ ((b.finalPercentage - b.initialPercentage) / 100 < 1 / 100)), if_pos hb2]
    have hfil : deepCharges (charges ++ [b]) = deepCharges charges ++ [b] := by
      unfold deepCharges
      rw [List.filter_append]
      simp [List.filter, hdeep]
    obtain ⟨xs, ys, h1, h2⟩ := sortK_append_singleton (·.date) b (deepCharges charges)
    by_cases hn : nominal ≤ 0
    · rw [trainSoH_neutral o _ nominal (Or.inl hn), trainSoH_neutral o _ nominal (Or.inl hn)]
    · rcases lt_or_le (deepCharges charges).length 3 with hlen | hlen
      · have hR := trainSoH_neutral o charges nominal (Or.inr (Or.inl hlen))
        rcases lt_or_le (deepCharges (charges ++ [b])).length 3 with hlen2 | hlen2
        · rw [trainSoH_neutral o _ nominal (Or.inr (Or.inl hlen2)), hR]
        · have hs : (saneSamples (charges ++ [b]) nominal).length < 3 := by
            unfold saneSamples firstDeepDate
            rw [hfil, h2, sohSamples_skip _ _ _ _ _ (hskip _)]
            have hle := sohSamples_length_le
              (((xs ++ b :: ys).headD defaultCharge).date) nominal (xs ++ ys)
            have hxy : (xs ++ ys).length = (deepCharges charges).length := by
              rw [← h1, sortK_length]
            omega
          rw [trainSoH_neutral o _ nominal (Or.inr (Or.inr hs)), hR]
      · have hlen2 : ¬ (deepCharges (charges ++ [b])).length < 3 := by
          rw [hfil, List.length_append]
          simp only [List.length_cons, List.length_nil]
          omega
        cases xs with
        | nil =>
          have hys : sortK (·.date) (deepCharges charges) = ys := by
            simpa using h1
          have hsy : sortK (·.date) (deepCharges (charges ++ [b])) = b :: ys := by
            rw [hfil]
            simpa using h2
          have hfd' : firstDeepDate (charges ++ [b]) = b.date := by
            unfold firstDeepDate
            rw [hsy]
            rfl
          have hδ : saneSamples (charges ++ [b]) nominal =
              (saneSamples charges nominal).map
                (fun s => (s.1 + ((firstDeepDate charges - b.date : ℤ) : ℚ) / 86400000,
                  s.2)) := by
            unfold saneSamples
            rw [hfd', hsy, hys]
            have hskip' : sohSamples b.date nominal (b :: ys) =
                sohSamples b.date nominal ys := by
              have h0 := sohSamples_skip b.date nominal b [] ys (hskip _)
              simpa using h0
            rw [hskip', sohSamples_shift (firstDeepDate charges) b.date nominal ys]
          have hcnt : (saneSamples (charges ++ [b]) nominal).length
              = (saneSamples charges nominal).length := by
            rw [hδ, List.length_map]
          by_cases hs3 : (saneSamples charges nominal).length < 3
          · rw [trainSoH_neutral o _ nominal (Or.inr (Or.inr (by rw [hcnt]; exact hs3))),
              trainSoH_neutral o _ nominal (Or.inr (Or.inr hs3))]
          · have hneS : saneSamples charges nominal ≠ [] := by
              intro hnil
              rw [hnil] at hs3
              simp at hs3
            rw [trainSoH_trained o _ nominal hn hlen2 (by rw [hcnt]; exact hs3),
              trainSoH_trained o _ nominal hn (not_lt.mpr hlen) hs3]
            exact trainTail_shift o _ _ nominal _ hδ hneS
        | cons x xs' =>
          have hfd : firstDeepDate (charges ++ [b]) = firstDeepDate charges := by
            unfold firstDeepDate
            rw [hfil, h2, h1]
            rfl
          have hsane : saneSamples (charges ++ [b]) nominal = saneSamples charges nominal := by
            unfold saneSamples
            rw [hfd, hfil, h2, h1, sohSamples_skip _ _ _ _ _ (hskip _)]
          by_cases hs3 : (saneSamples charges nominal).length < 3
          · rw [trainSoH_neutral o _ nominal (Or.inr (Or.inr (by rw [hsane]; exact hs3))),
              trainSoH_neutral o _ nominal (Or.inr (Or.inr hs3))]
          · rw [trainSoH_trained o _ nominal hn hlen2 (by rw [hsane]; exact hs3),
              trainSoH_trained o _ nominal hn (not_lt.mpr hlen) hs3]
            unfold trainTail
            rw [hsane]
  · have hfil : deepCharges (charges ++ [b]) = deepCharges charges := by
      unfold deepCharges
      rw [List.filter_append]
      simp [List.filter, hdeep]
    exact trainSoH_congr_deep o _ _ nominal hfil

/-- A session claiming 180 kWh for a 50% SoC gain: implied capacity 360 kWh,
six times the 60 kWh nominal, and dated before every other session. -/
def exBadCharge : Charge := ⟨180, 0, 20, 70, 500000⟩

theorem c2_witness :
    ((60 : ℚ) * (3/2) < impliedCapOf exBadCharge ∨
      impliedCapOf exBadCharge < 60 * (1/2)) ∧
    trainSoH exOracle (exSoHCharges ++ [exBadCharge]) 60 =
      trainSoH exOracle exSoHCharges 60 :=
  ⟨Or.inl (by decide!),
    c2_implausible_session_ignored exOracle exSoHCharges 60 exBadCharge
      (Or.inl (by decide!))⟩

/-!
## Range predictor scenarios (PredictiveService.predict / getScenarios)

The trained efficiency model is abstracted as an optional function from the
feature vector `[speed^2, safeDistance]` to a raw prediction; `predict`
itself contributes the untrained fallback (16.0), the `distance || 50`
default and the clamp to [10, 40].
-/

inductive ScenName
  | City
  | Mixed
  | Highway
  deriving DecidableEq, Repr

structure Scenario where
  name : ScenName
  speed : ℚ
  efficiency : ℚ
  range : ℤ
  deriving DecidableEq, Repr

/-- `PredictiveService.predict`: fallback 16.0 when untrained, otherwise
run the model on `[speed^2, distance || 50]` and clamp to [10, 40]. -/
def predictEff (model : Option (ℚ → ℚ → ℚ)) (speed : ℚ) (distance : ℚ) : ℚ :=
  match model with
  | none => 16
  | some f =>
      let safeDistance := if distance = 0 then 50 else distance
      max 10 (min 40 (f (speed ^ 2) safeDistance))

/-- `PredictiveService.getScenarios`: three canonical scenarios, each with
`range = Math.round(usableCapacity / efficiency * 100)` where
`usableCapacity = batteryCapacity * soh / 100`. -/
def getScenarios (model : Option (ℚ → ℚ → ℚ)) (batteryCapacity soh : ℚ) :
    List Scenario :=
  let usableCapacity := batteryCapacity * (soh / 100)
  [ { name := .City, speed := 30, efficiency := predictEff model 30 15,
      range := jsRound (usableCapacity / predictEff model 30 15 * 100) },
    { name := .Mixed, speed := 70, efficiency := predictEff model 70 35,
      range := jsRound (usableCapacity / predictEff model 70 35 * 100) },
    { name := .Highway, speed := 100, efficiency := predictEff model 100 100,
      range := jsRound (usableCapacity / predictEff model 100 100 * 100) } ]

theorem predictEff_bounds (model : Option (ℚ → ℚ → ℚ)) (speed distance : ℚ) :
    10 ≤ predictEff model speed distance ∧ predictEff model speed distance ≤ 40 := by
  cases model with
  | none => exact ⟨by norm_num [predictEff], by norm_num [predictEff]⟩
  | some f =>
    refine ⟨le_max_left _ _, ?_⟩
    simp only [predictEff]
    exact max_le (by norm_num) (min_le_left _ _)

/-- C8 (counterexample): for the positive battery capacity 0.01 kWh and
soh = 100, every returned range is 0, not a positive number (the code
rounds `usable/eff*100` with `Math.round`, and 0.0625 rounds to 0). -/
theorem c8_tiny_capacity_zero_range :
    (0 : ℚ) < 1/100 ∧ (0 : ℚ) < 100 ∧
    (getScenarios none (1/100) 100).map Scenario.range = [0, 0, 0] :=
  ⟨by norm_num, by norm_num, by decide!⟩

/-- C8 (amended): `getScenarios` always returns exactly the three entries
City (speed 30, evaluated at distance 15), Mixed (70, 35) and Highway
(100, 100), each with `range = Math.round(usable/efficiency*100)`; every
efficiency lies in [10, 40]; ranges are therefore nonnegative, and strictly
positive as soon as `batteryCapacity * soh ≥ 20` (usable capacity at least
0.2 kWh) — but for tiny positive capacities a range can round to 0. -/
theorem c8_scenarios (model : Option (ℚ → ℚ → ℚ)) (batteryCapacity soh : ℚ)
    (hc : 0 < batteryCapacity) (hs : 0 < soh) (h20 : 20 ≤ batteryCapacity * soh) :
    getScenarios model batteryCapacity soh =
      [ ⟨.City, 30, predictEff model 30 15,
          jsRound (batteryCapacity * (soh / 100) / predictEff model 30 15 * 100)⟩,
        ⟨.Mixed, 70, predictEff model 70 35,
          jsRound (batteryCapacity * (soh / 100) / predictEff model 70 35 * 100)⟩,
        ⟨.Highway, 100, predictEff model 100 100,
          jsRound (batteryCapacity * (soh / 100) / predictEff model 100 100 * 100)⟩ ] ∧
    ∀ s ∈ getScenarios model batteryCapacity soh,
      10 ≤ s.efficiency ∧ s.efficiency ≤ 40 ∧ 1 ≤ s.range := by
  constructor
  · rfl
  · have key : ∀ sp d : ℚ, 1 ≤ jsRound (batteryCapacity * (soh / 100) /
        predictEff model sp d * 100) := by
      intro sp d
      obtain ⟨h10, h40⟩ := predictEff_bounds model sp d
      have heffpos : (0 : ℚ) < predictEff model sp d := lt_of_lt_of_le (by norm_num) h10
      have husable : (1/5 : ℚ) ≤ batteryCapacity * (soh / 100) := by linarith
      have hdiv : (1/5 : ℚ) / 40 ≤ batteryCapacity * (soh / 100) / predictEff model sp d := by
        apply div_le_div (by linarith) husable heffpos h40
      have hx : (1/2 : ℚ) ≤ batteryCapacity * (soh / 100) / predictEff model sp d * 100 := by
        nlinarith
      unfold jsRound
      have : (1 : ℚ) ≤ batteryCapacity * (soh / 100) / predictEff model sp d * 100 + 1/2 := by
        linarith
      exact Int.le_floor.mpr (by exact_mod_cast this)
    intro s hs'
    simp only [getScenarios, List.mem_cons, List.not_mem_nil, or_false] at hs'
    rcases hs' with rfl | rfl | rfl
    · exact ⟨(predictEff_bounds model 30 15).1, (predictEff_bounds model 30 15).2, key 30 15⟩
    · exact ⟨(predictEff_bounds model 70 35).1, (predictEff_bounds model 70 35).2, key 70 35⟩
    · exact ⟨(predictEff_bounds model 100 100).1, (predictEff_bounds model 100 100).2,
        key 100 100⟩

theorem c8_witness :
    ((0 : ℚ) < 6048/100 ∧ (0 : ℚ) < 90 ∧ (20 : ℚ) ≤ 6048/100 * 90) ∧
    (∀ s ∈ getScenarios none (6048/100) 90, 10 ≤ s.efficiency ∧ s.efficiency ≤ 40 ∧
      1 ≤ s.range) :=
  ⟨⟨by norm_num, by norm_num, by norm_num⟩,
    (c8_scenarios none (6048/100) 90 (by norm_num) (by norm_num) (by norm_num)).2⟩

/-!
## Charging window scheduler (ChargingLogic.findSmartChargingWindows)

Dates are UTC epoch milliseconds: `setHours(0,0,0,0)` floors to the day
start, `getDay` is the weekday index (0 = Sunday ... 6 = Saturday, epoch
day 0 being a Thursday), `getHours`/`getMinutes` are the time of day.  Day
names (`days[i]`) are represented by their index `i` in the source array
`['Domingo', 'Lunes', 'Martes', 'Miércoles', 'Jueves', 'Viernes',
'Sábado']`, so 0 is Sunday and 6 is Saturday; the names are pairwise
non-prefixes of each other, so the `startsWith(dayKey)` bucket test is
exactly an index comparison.  `"HH:MM"` strings are (hour, minute) pairs.
-/

def dayMs : ℤ := 86400000

/-- `setHours(0, 0, 0, 0)`. -/
def dayStartOf (ms : ℤ) : ℤ := (ms.fdiv dayMs) * dayMs

/-- `getDay()` (0 = Sunday). -/
def dayIndexOf (ms : ℤ) : ℕ := ((ms.fdiv dayMs + 4).emod 7).toNat

/-- `getHours()`. -/
def hoursOf (ms : ℤ) : ℕ := ((ms.emod dayMs).fdiv 3600000).toNat

/-- `getMinutes()`. -/
def minutesOf (ms : ℤ) : ℕ := ((ms.emod 3600000).fdiv 60000).toNat

/-- A trip that survived the timestamp filter, with millisecond timestamps
(`start_ms = start_timestamp * 1000`). -/
structure VTrip where
  start_ms : ℤ
  end_ms : ℤ
  electricity : ℚ
  deriving DecidableEq, Repr

/-- Filter to trips with truthy start and end timestamps, scale to
milliseconds and sort by start time. -/
def validVTrips (trips : List Trip) : List VTrip :=
  sortK (·.start_ms)
    ((trips.filter (fun t => decide (t.start_timestamp ≠ 0) &&
        decide (t.end_timestamp ≠ 0))).map
      (fun t => ⟨t.start_timestamp * 1000, t.end_timestamp * 1000, t.electricity⟩))

/-- Use the last-30-days trips when there are more than 5 of them,
otherwise the whole valid history. -/
def dataToUse (now : ℤ) (valid : List VTrip) : List VTrip :=
  let recentTrips := valid.filter (fun t => decide (now - 30 * dayMs < t.start_ms))
  if 5 < recentTrips.length then recentTrips else valid

def totalKwhOf (l : List VTrip) : ℚ := (l.map (·.electricity)).sum

/-- `minTime`: fold of `min` over start times, seeded with `now`. -/
def minStartOf (now : ℤ) (l : List VTrip) : ℤ :=
  l.foldl (fun acc t => min acc t.start_ms) now

/-- `maxTime`: fold of `max` over start times, seeded with 0. -/
def maxStartOf (l : List VTrip) : ℤ :=
  l.foldl (fun acc t => max acc t.start_ms) 0

/-- Weekly consumption: total energy over the observed span (floored at one
day), scaled to 7 days.  No buffer is applied here. -/
def weeklyKwhOf (now : ℤ) (valid : List VTrip) : ℚ :=
  let d := dataToUse now valid
  let spanMs : ℤ := max dayMs (maxStartOf d - minStartOf now d)
  totalKwhOf d / ((spanMs : ℚ) / (dayMs : ℚ)) * 7

/-- `settings?.homeChargerRating || 16`. -/
def ampsOf (settings : Option Settings) : ℚ :=
  match settings with
  | none => 16
  | some s => if s.homeChargerRating = 0 then 16 else s.homeChargerRating

/-- Charger power in kW: `amps * 230 / 1000`. -/
def powerKwOf (settings : Option Settings) : ℚ := ampsOf settings * 230 / 1000

/-- `requiredHours = (weeklyKwh / powerKw) * 1.05` — a 5% buffer. -/
def requiredHoursOf (now : ℤ) (valid : List VTrip) (settings : Option Settings) : ℚ :=
  weeklyKwhOf now valid / powerKwOf settings * (21/20)

structure Gap where
  gstart : ℤ
  gend : ℤ
  durationH : ℚ
  deriving DecidableEq, Repr

/-- Parking gaps longer than 2 hours between consecutive valid trips. -/
def gapsOf : List VTrip → List Gap
  | a :: b :: rest =>
      (if 2 * 60 * 60 * 1000 < b.start_ms - a.end_ms
       then [⟨a.end_ms, b.start_ms, ((b.start_ms - a.end_ms : ℤ) : ℚ) / (1000 * 60 * 60)⟩]
       else []) ++ gapsOf (b :: rest)
  | _ => []

/-- `gaps.slice(-14)`. -/
def recentGapsOf (gaps : List Gap) : List Gap := gaps.drop (gaps.length - 14)

/-- Resolve the off-peak start for a weekday index: the weekend-specific
value when set on a weekend day, else the general value, else "00:00". -/
def schedStart (settings : Option Settings) (dayIdx : ℕ) : ℕ × ℕ :=
  match settings with
  | none => (0, 0)
  | some s =>
      if (dayIdx = 0 ∨ dayIdx = 6) ∧ s.offPeakStartWeekend.isSome
      then s.offPeakStartWeekend.getD (0, 0)
      else s.offPeakStart.getD (0, 0)

/-- Resolve the off-peak end for a weekday index, defaulting to "08:00". -/
def schedEnd (settings : Option Settings) (dayIdx : ℕ) : ℕ × ℕ :=
  match settings with
  | none => (8, 0)
  | some s =>
      if (dayIdx = 0 ∨ dayIdx = 6) ∧ s.offPeakEndWeekend.isSome
      then s.offPeakEndWeekend.getD (8, 0)
      else s.offPeakEnd.getD (8, 0)

structure Candidate where
  dayIndex : ℕ
  startHM : ℕ × ℕ
  duration : ℚ
  gapDuration : ℚ
  deriving DecidableEq, Repr

/-- The day-by-day walk over one parking gap: intersect each day's off-peak
window with the gap, keep intersections longer than 30 minutes, advance to
the next midnight after the window start, and give up after 14 rounds. -/
def candLoop (settings : Option Settings) (g : Gap) : ℕ → ℤ → List Candidate
  | 0, _ => []
  | fuel + 1, current =>
      if current < g.gend then
        let currentDayStart := dayStartOf current
        let di := dayIndexOf currentDayStart
        let sHM := schedStart settings di
        let eHM := schedEnd settings di
        let wStart := currentDayStart + (sHM.1 : ℤ) * 3600000 + (sHM.2 : ℤ) * 60000
        let wEnd :=
          if sHM.1 = 0 ∧ sHM.2 = 0 ∧ eHM.1 = 0 ∧ eHM.2 = 0 then currentDayStart + dayMs
          else
            let w := currentDayStart + (eHM.1 : ℤ) * 3600000 + (eHM.2 : ℤ) * 60000
            if w ≤ wStart then w + dayMs else w
        let iStart := max g.gstart wStart
        let iEnd := min g.gend wEnd
        (if iStart < iEnd then
          let durH := ((iEnd - iStart : ℤ) : ℚ) / (1000 * 60 * 60)
          if 1/2 < durH then
            [⟨dayIndexOf iStart, (hoursOf iStart, minutesOf iStart), durH, g.durationH⟩]
          else []
         else []) ++ candLoop settings g fuel (dayStartOf wStart + dayMs)
      else []

/-- Candidate generation: only in off-peak mode, over the 14 most recent
gaps (the non-off-peak branch of the source generates nothing). -/
def candidatesOf (settings : Option Settings) (gaps : List Gap) : List Candidate :=
  match settings with
  | none => []
  | some s =>
      if s.offPeakEnabled
      then (recentGapsOf gaps).flatMap (fun g => candLoop settings g 14 g.gstart)
      else []

structure Slot where
  totalDur : ℚ
  count : ℕ
  startMins : ℚ
  endMins : ℚ
  dayIndex : ℕ
  deriving DecidableEq, Repr

/-- Consolidation keys: `${dayKey}-${startMins}` is (day index, founding
start minute). -/
abbrev SlotKey : Type := ℕ × ℕ

/-- The `Object.keys(...).forEach` scan looking for an existing slot on the
same day starting within 2 hours: the LAST matching key wins. -/
def findSlotKey (cons : List (SlotKey × Slot)) (dayIdx : ℕ) (startMins : ℚ) :
    Option SlotKey :=
  cons.foldl
    (fun acc e =>
      if e.1.1 = dayIdx ∧ |e.2.startMins - startMins| < 120 then some e.1 else acc)
    none

/-- Process one candidate: fuzzy-merge into the found slot (running
weighted average of start/end minutes) or open a new slot keyed by the
founding day and start minute (a colliding key overwrites in place, as a JS
object assignment does). -/
def consolidateStep (cons : List (SlotKey × Slot)) (c : Candidate) :
    List (SlotKey × Slot) :=
  let startMins : ℚ := ((c.startHM.1 * 60 + c.startHM.2 : ℕ) : ℚ)
  let endMins : ℚ := startMins + c.duration * 60
  match findSlotKey cons c.dayIndex startMins with
  | some key =>
      cons.map (fun e =>
        if e.1 = key then
          (e.1,
            { totalDur := e.2.totalDur + c.duration
              count := e.2.count + 1
              startMins := (e.2.startMins * e.2.count + startMins) / (e.2.count + 1)
              endMins := (e.2.endMins * e.2.count + endMins) / (e.2.count + 1)
              dayIndex := e.2.dayIndex })
        else e)
  | none =>
      let newKey : SlotKey := (c.dayIndex, c.startHM.1 * 60 + c.startHM.2)
      let newSlot : Slot :=
        { totalDur := c.duration, count := 1, startMins := startMins,
          endMins := endMins, dayIndex := c.dayIndex }
      if cons.any (fun e => e.1 = newKey)
      then cons.map (fun e => if e.1 = newKey then (newKey, newSlot) else e)
      else cons ++ [(newKey, newSlot)]

def consolidatedOf (settings : Option Settings) (valid : List VTrip) :
    List (SlotKey × Slot) :=
  (candidatesOf settings (gapsOf valid)).foldl consolidateStep []

/-- The formatted end of a slot: optionally prefixed by a day name (when
the average duration exceeds 24h), or plain `"HH:MM"`; a midnight-aligned
end collapses to `"00:00"` with no day name. -/
structure EndTime where
  dayTag : Option ℕ
  hm : ℕ × ℕ
  deriving DecidableEq, Repr

structure ASlot where
  dayIndex : ℕ
  startHM : ℕ × ℕ
  endTime : EndTime
  avgDuration : ℚ
  deriving DecidableEq, Repr

/-- Format one consolidated slot: average duration, floored `"HH:MM"` start,
end re-derived as start + duration (wrapped mod 24h for display, with the
day-crossing and midnight special cases of the source). -/
def slotToAvail (s : Slot) : ASlot :=
  let avgDur := s.totalDur / (s.count : ℚ)
  let sTot : ℕ := (⌊s.startMins⌋).toNat
  let finalEndMins := s.startMins + avgDur * 60
  let eTot : ℕ := (⌊finalEndMins⌋).toNat
  let eHM : ℕ × ℕ := ((eTot % 1440) / 60, eTot % 60)
  let endTime : EndTime :=
    if (1440 : ℚ) ≤ finalEndMins then
      if eHM.1 = 0 ∧ eHM.2 = 0 then ⟨none, (0, 0)⟩
      else if 24 < avgDur then
        ⟨some ((s.dayIndex + (⌊finalEndMins / 1440⌋).toNat) % 7), eHM⟩
      else ⟨none, eHM⟩
    else ⟨none, eHM⟩
  ⟨s.dayIndex, (sTot / 60, sTot % 60), endTime, avgDur⟩

/-- Available slots: formatted consolidated slots, sorted by descending
average duration (the score), stably. -/
def availableSlotsOf (settings : Option Settings) (valid : List VTrip) : List ASlot :=
  sortK (fun s => -s.avgDuration) ((consolidatedOf settings valid).map (fun e => slotToAvail e.2))

/-- The bucket-filling loop: take slots until the accumulated hours reach
the required hours. -/
def selectLoop (required : ℚ) (acc : ℚ) : List ASlot → List ASlot × ℚ
  | [] => ([], acc)
  | s :: rest =>
      if required ≤ acc then ([], acc)
      else
        let r := selectLoop required (acc + s.avgDuration) rest
        (s :: r.1, r.2)

def selectedOf (now : ℤ) (valid : List VTrip) (settings : Option Settings) :
    List ASlot × ℚ :=
  selectLoop (requiredHoursOf now valid settings) 0 (availableSlotsOf settings valid)

inductive SchedNote
  | insufficient_time
  deriving DecidableEq, Repr

structure SWindow where
  day : ℕ
  start : ℕ × ℕ
  endTime : EndTime
  deriving DecidableEq, Repr

structure SchedPlan where
  windows : List SWindow
  weeklyKwh : ℚ
  requiredHours : ℚ
  hoursFound : ℚ
  note : Option SchedNote
  deriving DecidableEq, Repr

/-- `ChargingLogic.findSmartChargingWindows` (the V5 volume-based version in
`src/core/chargingLogic.ts`), with `new Date().getTime()` as the explicit
`now` parameter. -/
def findSmartChargingWindows (now : ℤ) (trips : List Trip)
    (settings : Option Settings) : Option SchedPlan :=
  if trips.length < 3 then none
  else
    if (validVTrips trips).length = 0 then none
    else
      let valid := validVTrips trips
      let required := requiredHoursOf now valid settings
      let sel := selectedOf now valid settings
      some
        { windows := sortK (·.day)
            (sel.1.map (fun s => ⟨s.dayIndex, s.startHM, s.endTime⟩))
          weeklyKwh := weeklyKwhOf now valid
          requiredHours := required
          hoursFound := sel.2
          note := if sel.2 < required then some .insufficient_time else none }

theorem selectLoop_sum (required : ℚ) (acc : ℚ) (l : List ASlot) :
    (selectLoop required acc l).2 =
      acc + ((selectLoop required acc l).1.map (·.avgDuration)).sum := by
  induction l generalizing acc with
  | nil => simp [selectLoop]
  | cons s rest ih =>
    by_cases h : required ≤ acc
    · simp [selectLoop, h]
    · simp only [selectLoop, if_neg h, List.map_cons, List.sum_cons]
      rw [ih (acc + s.avgDuration)]
      ring

/-- Invariant of consolidated slots: a positive count and an end-minus-start
span of exactly 60 times the average duration (the running weighted
averages keep start/end consistent with the accumulated durations). -/
def slotBalanced (e : SlotKey × Slot) : Prop :=
  1 ≤ e.2.count ∧ e.2.endMins - e.2.startMins = 60 * (e.2.totalDur / (e.2.count : ℚ))

theorem consolidateStep_merge (cons : List (SlotKey × Slot)) (c : Candidate)
    (key : SlotKey)
    (hk : findSlotKey cons c.dayIndex ((c.startHM.1 * 60 + c.startHM.2 : ℕ) : ℚ) = some key) :
    consolidateStep cons c = cons.map (fun e =>
      if e.1 = key then
        (e.1,
          { totalDur := e.2.totalDur + c.duration
            count := e.2.count + 1
            startMins := (e.2.startMins * e.2.count +
              ((c.startHM.1 * 60 + c.startHM.2 : ℕ) : ℚ)) / (e.2.count + 1)
            endMins := (e.2.endMins * e.2.count +
              (((c.startHM.1 * 60 + c.startHM.2 : ℕ) : ℚ) + c.duration * 60)) / (e.2.count + 1)
            dayIndex := e.2.dayIndex })
      else e) := by
  unfold consolidateStep
  dsimp only
  rw [hk]

theorem consolidateStep_fresh (cons : List (SlotKey × Slot)) (c : Candidate)
    (hk : findSlotKey cons c.dayIndex ((c.startHM.1 * 60 + c.startHM.2 : ℕ) : ℚ) = none) :
    consolidateStep cons c =
      (if cons.any (fun e => e.1 = (c.dayIndex, c.startHM.1 * 60 + c.startHM.2)) then
        cons.map (fun e =>
          if e.1 = (c.dayIndex, c.startHM.1 * 60 + c.startHM.2) then
            ((c.dayIndex, c.startHM.1 * 60 + c.startHM.2),
              { totalDur := c.duration, count := 1,
                startMins := ((c.startHM.1 * 60 + c.startHM.2 : ℕ) : ℚ),
                endMins := ((c.startHM.1 * 60 + c.startHM.2 : ℕ) : ℚ) + c.duration * 60,
                dayIndex := c.dayIndex })
          else e)
      else cons ++ [((c.dayIndex, c.startHM.1 * 60 + c.startHM.2),
        { totalDur := c.duration, count := 1,
          startMins := ((c.startHM.1 * 60 + c.startHM.2 : ℕ) : ℚ),
          endMins := ((c.startHM.1 * 60 + c.startHM.2 : ℕ) : ℚ) + c.duration * 60,
          dayIndex := c.dayIndex })]) := by
  unfold consolidateStep
  dsimp only
  rw [hk]

theorem consolidateStep_balanced (cons : List (SlotKey × Slot)) (c : Candidate)
    (h : ∀ e ∈ cons, slotBalanced e) : ∀ e ∈ consolidateStep cons c, slotBalanced e := by
  have hnew : slotBalanced ((c.dayIndex, c.startHM.1 * 60 + c.startHM.2),
      { totalDur := c.duration, count := 1,
        startMins := ((c.startHM.1 * 60 + c.startHM.2 : ℕ) : ℚ),
        endMins := ((c.startHM.1 * 60 + c.startHM.2 : ℕ) : ℚ) + c.duration * 60,
        dayIndex := c.dayIndex }) := by
    refine ⟨le_rfl, ?_⟩
    push_cast
    ring
  rcases hk : findSlotKey cons c.dayIndex ((c.startHM.1 * 60 + c.startHM.2 : ℕ) : ℚ)
    with _ | key
  · rw [consolidateStep_fresh cons c hk]
    by_cases hdup : cons.any (fun e => e.1 = (c.dayIndex, c.startHM.1 * 60 + c.startHM.2))
    · rw [if_pos hdup]
      intro e' he'
      simp only [List.mem_map] at he'
      obtain ⟨e, he, rfl⟩ := he'
      by_cases hkey : e.1 = (c.dayIndex, c.startHM.1 * 60 + c.startHM.2)
      · rw [if_pos hkey]
        exact hnew
      · rw [if_neg hkey]
        exact h e he
    · rw [if_neg hdup]
      intro e' he'
      rcases List.mem_append.mp he' with he'' | he''
      · exact h e' he''
      · rw [List.mem_singleton] at he''
        subst he''
        exact hnew
  · rw [consolidateStep_merge cons c key hk]
    intro e' he'
    simp only [List.mem_map] at he'
    obtain ⟨e, he, rfl⟩ := he'
    by_cases hkey : e.1 = key
    · rw [if_pos hkey]
      obtain ⟨hcnt, hbal⟩ := h e he
      have hn : ((e.2.count : ℚ)) ≠ 0 := by
        have hpos : (0 : ℕ) < e.2.count := hcnt
        exact_mod_cast Nat.ne_of_gt hpos
      refine ⟨Nat.le_succ_of_le hcnt, ?_⟩
      show (e.2.endMins * e.2.count +
          (((c.startHM.1 * 60 + c.startHM.2 : ℕ) : ℚ) + c.duration * 60)) / (e.2.count + 1) -
        (e.2.startMins * e.2.count + ((c.startHM.1 * 60 + c.startHM.2 : ℕ) : ℚ)) /
          (e.2.count + 1) =
        60 * ((e.2.totalDur + c.duration) / ((e.2.count + 1 : ℕ) : ℚ))
      have hn1 : ((e.2.count : ℚ)) + 1 ≠ 0 := by positivity
      push_cast
      field_simp
      field_simp at hbal
      linear_combination hbal
    · rw [if_neg hkey]
      exact h e he

theorem consolidated_balanced (settings : Option Settings) (valid : List VTrip) :
    ∀ e ∈ consolidatedOf settings valid, slotBalanced e := by
  unfold consolidatedOf
  generalize candidatesOf settings (gapsOf valid) = cs
  suffices hgen : ∀ init : List (SlotKey × Slot), (∀ e ∈ init, slotBalanced e) →
      ∀ e ∈ cs.foldl consolidateStep init, slotBalanced e by
    exact hgen [] (by intro e he; exact absurd he (List.not_mem_nil e))
  induction cs with
  | nil =>
    intro init hinit
    exact hinit
  | cons c cs ih =>
    intro init hinit
    exact ih (consolidateStep init c) (consolidateStep_balanced init c hinit)

/-- Helper: a returned plan is exactly the record the scheduler builds. -/
theorem findSmart_eq_some (now : ℤ) (trips : List Trip) (settings : Option Settings)
    (p : SchedPlan) (h : findSmartChargingWindows now trips settings = some p) :
    p = { windows := sortK (·.day)
            ((selectedOf now (validVTrips trips) settings).1.map
              (fun s => ⟨s.dayIndex, s.startHM, s.endTime⟩))
          weeklyKwh := weeklyKwhOf now (validVTrips trips)
          requiredHours := requiredHoursOf now (validVTrips trips) settings
          hoursFound := (selectedOf now (validVTrips trips) settings).2
          note := if (selectedOf now (validVTrips trips) settings).2 <
              requiredHoursOf now (validVTrips trips) settings
            then some .insufficient_time else none } := by
  unfold findSmartChargingWindows at h
  by_cases h3 : trips.length < 3
  · rw [if_pos h3] at h
    exact absurd h (by simp)
  · rw [if_neg h3] at h
    by_cases h0 : (validVTrips trips).length = 0
    · rw [if_pos h0] at h
      exact absurd h (by simp)
    · rw [if_neg h0] at h
      exact (Option.some.inj h).symm

/-- C10: the scheduler returns `null`, not a degraded plan, whenever fewer
than 3 trips are supplied or no supplied trip has both a (truthy) start and
end timestamp. -/
theorem c10_returns_null (now : ℤ) (trips : List Trip) (settings : Option Settings)
    (h : trips.length < 3 ∨ ∀ t ∈ trips, t.start_timestamp = 0 ∨ t.end_timestamp = 0) :
    findSmartChargingWindows now trips settings = none := by
  unfold findSmartChargingWindows
  rcases h with h | h
  · rw [if_pos h]
  · by_cases h3 : trips.length < 3
    · rw [if_pos h3]
    · rw [if_neg h3]
      have hfil : trips.filter (fun t => decide (t.start_timestamp ≠ 0) &&
          decide (t.end_timestamp ≠ 0)) = [] := by
        rw [List.filter_eq_nil]
        intro t ht
        rcases h t ht with h0 | h0 <;> simp [h0]
      have hempty : (validVTrips trips).length = 0 := by
        unfold validVTrips
        rw [hfil]
        simp [sortK]
      rw [if_pos hempty]

/-- Three trips, none with both timestamps present. -/
def exNoTsTrips : List Trip :=
  [⟨0, 0, 5, none, none, 1⟩, ⟨0, 500, 5, none, none, 2⟩, ⟨300, 0, 5, none, none, 3⟩]

theorem c10_witness :
    (exNoTsTrips.length < 3 ∨
      ∀ t ∈ exNoTsTrips, t.start_timestamp = 0 ∨ t.end_timestamp = 0) ∧
    findSmartChargingWindows 0 exNoTsTrips none = none :=
  ⟨Or.inr (by decide), c10_returns_null 0 exNoTsTrips none (Or.inr (by decide))⟩

/-- Off-peak settings: weekends are fully off-peak ("00:00"-"00:00"),
weekdays fall back to the 00:00-08:00 default; charger rating unset. -/
def exSchedSettings : Settings :=
  { offPeakEnabled := true, offPeakStart := none, offPeakEnd := none,
    offPeakStartWeekend := some (0, 0), offPeakEndWeekend := some (0, 0),
    homeChargerRating := 0, batterySize := 60 }

/-- Three trips (timestamps in epoch seconds): Friday 10:00-20:00, then
Monday 06:00-07:00 and Monday 07:30-08:00, leaving one 58h parking gap
covering a fully-off-peak Saturday and Sunday plus Monday 00:00-06:00. -/
def exSchedTrips : List Trip :=
  [ ⟨122400, 158400, 20, none, none, 1⟩,
    ⟨367200, 370800, 12, none, none, 2⟩,
    ⟨372600, 374400, 10, none, none, 3⟩ ]

def exSchedNow : ℤ := 864000000

/-- The plan the scheduler returns on `exSchedTrips`: 24h windows on
Sunday and Saturday, both formatted "00:00"-"00:00" (midnight wrap). -/
def exSchedPlan : SchedPlan :=
  { windows := [⟨0, (0, 0), ⟨none, (0, 0)⟩⟩, ⟨6, (0, 0), ⟨none, (0, 0)⟩⟩],
    weeklyKwh := 14112/139,
    requiredHours := 92610/3197,
    hoursFound := 48,
    note := none }

/-- The duration, in hours, that a consumer would re-derive from a returned
window's formatted "HH:MM" strings. -/
def parsedWindowHours (w : SWindow) : ℚ :=
  (((w.endTime.hm.1 * 60 + w.endTime.hm.2 : ℕ) : ℚ) -
    ((w.start.1 * 60 + w.start.2 : ℕ) : ℚ)) / 60

/-- C1 (counterexample): on `exSchedTrips` the plan's `hoursFound` is 48,
but the durations parsed back from the returned windows' formatted times
sum to 0 (both 24h windows print as "00:00"-"00:00"), so `hoursFound` does
not equal the sum of `(endMins - startMins)/60` over the returned windows.
-/
theorem c1_counterexample :
    findSmartChargingWindows exSchedNow exSchedTrips (some exSchedSettings) =
      some exSchedPlan ∧
    (exSchedPlan.windows.map parsedWindowHours).sum ≠ exSchedPlan.hoursFound :=
  ⟨by decide!, by decide!⟩

/-- C1 (amended): whenever a plan is returned, `hoursFound` equals the sum
of the selected slots' average durations, each of which is exactly
`(endMins - startMins)/60` of its internal consolidated slot (the weighted
averages keep that identity); and `note` is `'insufficient_time'` exactly
when `hoursFound < requiredHours` (no note otherwise).  The equality fails
only for durations re-parsed from the formatted `HH:MM` output (minute
flooring and midnight wrap-around). -/
theorem c1_hours_and_note (now : ℤ) (trips : List Trip) (settings : Option Settings)
    (p : SchedPlan) (h : findSmartChargingWindows now trips settings = some p) :
    p.hoursFound =
      ((selectedOf now (validVTrips trips) settings).1.map (·.avgDuration)).sum ∧
    (∀ e ∈ consolidatedOf settings (validVTrips trips),
      (e.2.endMins - e.2.startMins) / 60 = e.2.totalDur / (e.2.count : ℚ)) ∧
    (p.note = some .insufficient_time ↔ p.hoursFound < p.requiredHours) := by
  rw [findSmart_eq_some now trips settings p h]
  refine ⟨?_, ?_, ?_⟩
  · have hsum := selectLoop_sum (requiredHoursOf now (validVTrips trips) settings) 0
      (availableSlotsOf settings (validVTrips trips))
    simpa [selectedOf] using hsum
  · intro e he
    have hinv := consolidated_balanced settings (validVTrips trips) e he
    rw [hinv.2]
    ring
  · dsimp only
    by_cases hlt : (selectedOf now (validVTrips trips) settings).2 <
        requiredHoursOf now (validVTrips trips) settings
    · simp [hlt]
    · simp [hlt]

theorem c1_witness :
    findSmartChargingWindows exSchedNow exSchedTrips (some exSchedSettings) =
      some exSchedPlan ∧
    (exSchedPlan.hoursFound =
      ((selectedOf exSchedNow (validVTrips exSchedTrips) (some exSchedSettings)).1.map
        (·.avgDuration)).sum ∧
    (∀ e ∈ consolidatedOf (some exSchedSettings) (validVTrips exSchedTrips),
      (e.2.endMins - e.2.startMins) / 60 = e.2.totalDur / (e.2.count : ℚ)) ∧
    (exSchedPlan.note = some .insufficient_time ↔
      exSchedPlan.hoursFound < exSchedPlan.requiredHours)) :=
  ⟨by decide!,
    c1_hours_and_note exSchedNow exSchedTrips (some exSchedSettings) exSchedPlan
      (by decide!)⟩

/-- C6 (counterexample): on `exSchedTrips` the returned plan's
`requiredHours` (92610/3197 ≈ 28.97) is NOT the weekly need with a 10%
buffer divided by the charger power (that would be 97020/3197 ≈ 30.35):
the code applies a 5% buffer, not 10%. -/
theorem c6_counterexample :
    findSmartChargingWindows exSchedNow exSchedTrips (some exSchedSettings) =
      some exSchedPlan ∧
    exSchedPlan.requiredHours ≠
      exSchedPlan.weeklyKwh * (11/10) / (ampsOf (some exSchedSettings) * 230 / 1000) :=
  ⟨by decide!, by decide!⟩

/-- C6 (amended): the weekly need is the historical consumption over the
observed span extrapolated to 7 days with NO buffer on the energy figure,
and `requiredHours` is that need divided by the charger power (configured
amperage at 230V, default 16A = 3.68kW) times 1.05 — a 5% buffer on the
hours, not 10%. -/
theorem c6_need_and_power (now : ℤ) (trips : List Trip) (settings : Option Settings)
    (p : SchedPlan) (h : findSmartChargingWindows now trips settings = some p) :
    p.weeklyKwh = weeklyKwhOf now (validVTrips trips) ∧
    p.requiredHours = p.weeklyKwh / (ampsOf settings * 230 / 1000) * (21/20) := by
  rw [findSmart_eq_some now trips settings p h]
  exact ⟨rfl, rfl⟩

theorem c6_witness :
    findSmartChargingWindows exSchedNow exSchedTrips (some exSchedSettings) =
      some exSchedPlan ∧
    (exSchedPlan.weeklyKwh = weeklyKwhOf exSchedNow (validVTrips exSchedTrips) ∧
    exSchedPlan.requiredHours =
      exSchedPlan.weeklyKwh / (ampsOf (some exSchedSettings) * 230 / 1000) * (21/20)) :=
  ⟨by decide!,
    c6_need_and_power exSchedNow exSchedTrips (some exSchedSettings) exSchedPlan
      (by decide!)⟩

/-- C7 (counterexample): on `exSchedTrips` the returned windows are
[Sunday (index 0), Saturday (index 6)] — Sunday comes FIRST, although a
Saturday window exists, refuting "Saturday's windows first, then
Sunday's". -/
theorem c7_counterexample :
    (findSmartChargingWindows exSchedNow exSchedTrips (some exSchedSettings)).map
      (fun p => p.windows.map (·.day)) = some [0, 6] := by
  decide!

/-- C7 (amended): the returned windows are sorted by ascending index in the
source's day array ['Domingo', 'Lunes', ..., 'Sábado'] — Sunday first, then
Monday through Friday, then Saturday LAST (not Saturday first); the final
sort compares only the day, so within a day the windows keep their
descending-duration selection order, not ascending start time. -/
theorem c7_day_ordering (now : ℤ) (trips : List Trip) (settings : Option Settings)
    (p : SchedPlan) (h : findSmartChargingWindows now trips settings = some p) :
    List.Pairwise (fun a b => a.day ≤ b.day) p.windows := by
  rw [findSmart_eq_some now trips settings p h]
  exact sortK_sorted (fun w : SWindow => w.day)
    ((selectedOf now (validVTrips trips) settings).1.map
      (fun s => ⟨s.dayIndex, s.startHM, s.endTime⟩))

theorem c7_witness :
    findSmartChargingWindows exSchedNow exSchedTrips (some exSchedSettings) =
      some exSchedPlan ∧
    List.Pairwise (fun a b => a.day ≤ b.day) exSchedPlan.windows :=
  ⟨by decide!,
    c7_day_ordering exSchedNow exSchedTrips (some exSchedSettings) exSchedPlan
      (by decide!)⟩
